import Mathlib

/-!
# Verification of the lvmdbusd `ObjectManager` registry

Shallow embedding of `daemons/lvmdbusd/objectmanager.py`.

The registry state consists of two Python dictionaries:
* `_objects`       : object-path -> (dbus object, lvm_id, uuid)
* `_id_to_object_path` : identifier string -> object-path

Python `dict`s are modelled as association lists with the exact insertion
semantics of CPython dicts: assigning to an existing key keeps its position,
assigning a fresh key appends at the end, and `del` removes the entry.
A Python string that may also be `None` is modelled as `Option String`,
with Python truthiness (`if s:`) meaning "not `None` and not empty".
A failing `assert` is modelled by returning `none` from the operation
(the exception escapes the operation; no post-state is observable).
`os.path.realpath` depends on the filesystem and is kept as an explicit
function parameter `rp` of the lookup operations.
-/

namespace ObjMgr

/-- Python `d[k]` / `d.get(k)`: value of the first (unique) binding of `k`. -/
def dictGet {γ : Type} (m : List (String × γ)) (k : String) : Option γ :=
  match m with
  | [] => none
  | (k', v) :: rest => if k' = k then some v else dictGet rest k

/-- Python `k in d`. -/
def dictMem {γ : Type} (m : List (String × γ)) (k : String) : Bool :=
  (dictGet m k).isSome

/-- Python `d[k] = v`: replace in place if the key exists, append otherwise. -/
def dictSet {γ : Type} (m : List (String × γ)) (k : String) (v : γ) :
    List (String × γ) :=
  match m with
  | [] => [(k, v)]
  | (k', v') :: rest =>
    if k' = k then (k, v) :: rest else (k', v') :: dictSet rest k v

/-- Python `del d[k]`: drop the (unique) binding of `k`. -/
def dictDel {γ : Type} (m : List (String × γ)) (k : String) :
    List (String × γ) :=
  match m with
  | [] => []
  | (k', v') :: rest =>
    if k' = k then rest else (k', v') :: dictDel rest k

/-- The key list of a dictionary. -/
def keysOf {γ : Type} (m : List (String × γ)) : List String := m.map Prod.fst

theorem dictGet_dictSet {γ : Type} (m : List (String × γ)) (k a : String) (v : γ) :
    dictGet (dictSet m k v) a = if a = k then some v else dictGet m a := by
  induction m with
  | nil =>
    by_cases h : a = k
    · subst h; simp [dictSet, dictGet]
    · have h' : ¬k = a := fun hh => h hh.symm
      simp [dictSet, dictGet, h, h']
  | cons p rest ih =>
    obtain ⟨k', v'⟩ := p
    by_cases hk : k' = k
    · subst hk
      by_cases ha : a = k'
      · subst ha; simp [dictSet, dictGet]
      · have ha' : ¬k' = a := fun hh => ha hh.symm
        simp [dictSet, dictGet, ha, ha']
    · by_cases ha : k' = a
      · subst ha
        have ha2 : ¬k' = k := hk
        simp [dictSet, dictGet, hk]
      · simp [dictSet, dictGet, hk, ha, ih]

theorem dictGet_dictDel_of_ne {γ : Type} (m : List (String × γ)) (k a : String)
    (h : a ≠ k) : dictGet (dictDel m k) a = dictGet m a := by
  induction m with
  | nil => simp [dictDel]
  | cons p rest ih =>
    obtain ⟨k', v'⟩ := p
    by_cases hk : k' = k
    · subst hk
      have h' : ¬k' = a := fun hh => h hh.symm
      simp [dictDel, dictGet, h']
    · by_cases ha : k' = a
      · subst ha; simp [dictDel, dictGet, hk]
      · simp [dictDel, dictGet, hk, ha, ih]

theorem mem_keysOf_of_dictGet {γ : Type} (m : List (String × γ)) (k : String)
    (h : (dictGet m k).isSome) : k ∈ keysOf m := by
  induction m with
  | nil => simp [dictGet] at h
  | cons p rest ih =>
    obtain ⟨k', v'⟩ := p
    by_cases hk : k' = k
    · subst hk; simp [keysOf]
    · simp only [dictGet, hk, if_neg] at h
      simp [keysOf] at ih ⊢
      exact Or.inr (ih h)

theorem dictGet_eq_none_of_not_mem {γ : Type} (m : List (String × γ)) (k : String)
    (h : k ∉ keysOf m) : dictGet m k = none := by
  cases hg : dictGet m k with
  | none => rfl
  | some v =>
    exact absurd (mem_keysOf_of_dictGet m k (by simp [hg])) h

theorem dictGet_dictDel_self {γ : Type} (m : List (String × γ)) (k : String)
    (h : (keysOf m).Nodup) : dictGet (dictDel m k) k = none := by
  induction m with
  | nil => simp [dictDel, dictGet]
  | cons p rest ih =>
    obtain ⟨k', v'⟩ := p
    simp only [keysOf, List.map_cons, List.nodup_cons] at h
    by_cases hk : k' = k
    · subst hk
      simp only [dictDel, if_pos rfl]
      exact dictGet_eq_none_of_not_mem rest k' h.1
    · simp only [dictDel, if_neg hk, dictGet, if_neg hk]
      exact ih h.2

theorem mem_of_mem_dictDel {γ : Type} {m : List (String × γ)} {k : String}
    {pe : String × γ} (h : pe ∈ dictDel m k) : pe ∈ m := by
  induction m with
  | nil => simp [dictDel] at h
  | cons p rest ih =>
    by_cases hk : p.1 = k
    · obtain ⟨k', v'⟩ := p
      simp only [dictDel, if_pos hk] at h
      exact List.mem_cons_of_mem _ h
    · obtain ⟨k', v'⟩ := p
      simp only [dictDel, if_neg hk] at h
      rcases List.mem_cons.mp h with h | h
      · rw [h]; exact List.mem_cons_self _ _
      · exact List.mem_cons_of_mem _ (ih h)

theorem eq_or_mem_of_mem_dictSet {γ : Type} {m : List (String × γ)} {k : String}
    {v : γ} {pe : String × γ} (h : pe ∈ dictSet m k v) : pe = (k, v) ∨ pe ∈ m := by
  induction m with
  | nil => simpa [dictSet] using h
  | cons p rest ih =>
    obtain ⟨k', v'⟩ := p
    by_cases hk : k' = k
    · subst hk
      simp only [dictSet, if_pos rfl] at h
      rcases List.mem_cons.mp h with h | h
      · exact Or.inl h
      · exact Or.inr (List.mem_cons_of_mem _ h)
    · simp only [dictSet, if_neg hk] at h
      rcases List.mem_cons.mp h with h | h
      · refine Or.inr ?_
        rw [h]; exact List.mem_cons_self _ _
      · rcases ih h with h | h
        · exact Or.inl h
        · exact Or.inr (List.mem_cons_of_mem _ h)

theorem mem_keysOf_dictSet {γ : Type} {m : List (String × γ)} {k a : String}
    {v : γ} (h : a ∈ keysOf (dictSet m k v)) : a = k ∨ a ∈ keysOf m := by
  simp only [keysOf, List.mem_map] at h
  obtain ⟨pe, hpe, hfst⟩ := h
  rcases eq_or_mem_of_mem_dictSet hpe with h | h
  · left; rw [← hfst, h]
  · right; exact List.mem_map.mpr ⟨pe, h, hfst⟩

theorem mem_keysOf_dictDel {γ : Type} {m : List (String × γ)} {k a : String}
    (h : a ∈ keysOf (dictDel m k)) : a ∈ keysOf m := by
  simp only [keysOf, List.mem_map] at h
  obtain ⟨pe, hpe, hfst⟩ := h
  exact List.mem_map.mpr ⟨pe, mem_of_mem_dictDel hpe, hfst⟩

theorem nodupKeys_dictSet {γ : Type} (m : List (String × γ)) (k : String) (v : γ)
    (h : (keysOf m).Nodup) : (keysOf (dictSet m k v)).Nodup := by
  induction m with
  | nil => simp [dictSet, keysOf]
  | cons p rest ih =>
    obtain ⟨k', v'⟩ := p
    simp only [keysOf, List.map_cons, List.nodup_cons] at h
    by_cases hk : k' = k
    · subst hk
      simpa [dictSet, keysOf] using h
    · simp only [dictSet, if_neg hk, keysOf, List.map_cons, List.nodup_cons]
      refine ⟨fun hmem => ?_, ih h.2⟩
      rcases mem_keysOf_dictSet hmem with hh | hh
      · exact hk hh
      · exact h.1 hh

theorem nodupKeys_dictDel {γ : Type} (m : List (String × γ)) (k : String)
    (h : (keysOf m).Nodup) : (keysOf (dictDel m k)).Nodup := by
  induction m with
  | nil => simp [dictDel, keysOf]
  | cons p rest ih =>
    obtain ⟨k', v'⟩ := p
    simp only [keysOf, List.map_cons, List.nodup_cons] at h
    by_cases hk : k' = k
    · subst hk; simpa [dictDel] using h.2
    · simp only [dictDel, if_neg hk, keysOf, List.map_cons, List.nodup_cons]
      exact ⟨fun hmem => h.1 (mem_keysOf_dictDel hmem), ih h.2⟩

theorem dictGet_of_mem_nodup {γ : Type} {m : List (String × γ)} {k : String}
    {v : γ} (hnd : (keysOf m).Nodup) (h : (k, v) ∈ m) : dictGet m k = some v := by
  induction m with
  | nil => simp at h
  | cons p rest ih =>
    obtain ⟨k', v'⟩ := p
    simp only [keysOf, List.map_cons, List.nodup_cons] at hnd
    rcases List.mem_cons.mp h with h | h
    · injection h with h1 h2
      subst h1; subst h2
      simp [dictGet]
    · have hne : k' ≠ k := by
        intro hkk
        subst hkk
        exact hnd.1 (List.mem_map.mpr ⟨(k', v), h, rfl⟩)
      simp only [dictGet, if_neg hne]
      exact ih hnd.2 h

theorem mem_of_dictGet {γ : Type} {m : List (String × γ)} {k : String} {v : γ}
    (h : dictGet m k = some v) : (k, v) ∈ m := by
  induction m with
  | nil => simp [dictGet] at h
  | cons p rest ih =>
    obtain ⟨k', v'⟩ := p
    by_cases hk : k' = k
    · subst hk
      simp only [dictGet, if_pos, Option.some.injEq] at h
      have h2 : v' = v := by simpa using h
      subst h2
      exact List.mem_cons_self _ _
    · simp only [dictGet, if_neg hk] at h
      exact List.mem_cons_of_mem _ (ih h)

theorem length_dictSet_of_not_mem {γ : Type} (m : List (String × γ)) (k : String)
    (v : γ) (h : dictGet m k = none) :
    (dictSet m k v).length = m.length + 1 := by
  induction m with
  | nil => simp [dictSet]
  | cons p rest ih =>
    obtain ⟨k', v'⟩ := p
    by_cases hk : k' = k
    · subst hk; simp [dictGet] at h
    · simp only [dictGet, if_neg hk] at h
      simp [dictSet, if_neg hk, ih h]

/-- Python `the_id.split("/", 1)`: split a string at the first `/`
(the separator itself belongs to neither side). -/
def splitOnce (s : String) : String × String :=
  (String.mk (s.toList.takeWhile (fun c => c != '/')),
   String.mk ((s.toList.dropWhile (fun c => c != '/')).drop 1))

/-- `vg + "/" + ("[%s]" % lv)` applied to the two halves of `split("/", 1)`:
the hidden-child encoding tried by `_id_lookup`. -/
def hiddenLv (s : String) : String :=
  (splitOnce s).1 ++ "/" ++ "[" ++ (splitOnce s).2 ++ "]"

/-- Python `"/" in the_id`. -/
def strHasSlash (s : String) : Bool := s.toList.contains '/'

/-- Python `the_id.startswith('/')`. -/
def strStartsSlash (s : String) : Bool := s.toList.head? == some '/'

/-- Python truthiness of an optional string: `None` and `""` are falsy. -/
def truthy : Option String → Bool
  | none => false
  | some s => !(s = "")

/-- Python `i in d` where `i` may be `None` (never a key of the index). -/
def idMemOpt (idx : List (String × String)) : Option String → Bool
  | none => false
  | some s => dictMem idx s

/-- One row of `_objects`: the stored triple `(obj, lvm_id, uuid)`.
`obj = none` models a placeholder entry whose dbus object is `None`;
a live dbus object is identified by a numeric tag. -/
structure Entry where
  obj : Option Nat
  lvm_id : Option String
  uuid : Option String
deriving DecidableEq

/-- The `ObjectManager` state: `_objects` and `_id_to_object_path`. -/
structure OM where
  objects : List (String × Entry)
  idx : List (String × String)
deriving DecidableEq

/-- The state right after `__init__`: both dictionaries empty. -/
def OM.empty : OM := ⟨[], []⟩

/-- A dbus object as the registry sees it: its numeric identity, its
object path (`dbus_object_path()` / first component of `emit_data()`),
and its `lvm_id` and `Uuid` attributes. -/
structure Handle where
  obj : Nat
  path : String
  lvm_id : Option String
  uuid : Option String
deriving DecidableEq

/-- `if i in self._id_to_object_path: del self._id_to_object_path[i]`
where `i` may be `None` (never a key). -/
def delId (idx : List (String × String)) (i : Option String) :
    List (String × String) :=
  match i with
  | none => idx
  | some s => if dictMem idx s then dictDel idx s else idx

/-- `_lookup_remove(obj_path)`: if the path is present, delete the entry
and the index keys equal to its stored `lvm_id` and `uuid`. -/
def lookup_remove (st : OM) (obj_path : String) : OM :=
  match dictGet st.objects obj_path with
  | some e =>
    { objects := dictDel st.objects obj_path,
      idx := delId (delId st.idx e.lvm_id) e.uuid }
  | none => st

/-- `if lvm_id: self._id_to_object_path[lvm_id] = path` (and likewise for
`uuid`): add an index mapping when the identifier is truthy. -/
def addId (idx : List (String × String)) (i : Option String) (path : String) :
    List (String × String) :=
  match i with
  | none => idx
  | some s => if s = "" then idx else dictSet idx s path

/-- Body of `_lookup_add(obj, path, lvm_id, uuid)` (the mutation part):
first `_lookup_remove(path)`, then store the entry and index both truthy
identifiers.  The `assert lvm_id or uuid` guard is handled by `lookup_add`. -/
def lookup_add_raw (st : OM) (obj : Option Nat) (path : String)
    (lvm_id uuid : Option String) : OM :=
  let st1 := lookup_remove st path
  { objects := dictSet st1.objects path ⟨obj, lvm_id, uuid⟩,
    idx := addId (addId st1.idx lvm_id path) uuid path }

/-- `_lookup_add` including its `assert lvm_id or uuid`: a call with two
falsy identifiers raises and yields no post-state. -/
def lookup_add (st : OM) (obj : Option Nat) (path : String)
    (lvm_id uuid : Option String) : Option OM :=
  if truthy lvm_id || truthy uuid then
    some (lookup_add_raw st obj path lvm_id uuid)
  else none

/-- `register_object(dbus_object)`: `_lookup_add(dbus_object, path,
dbus_object.lvm_id, dbus_object.Uuid)` with `path` from `emit_data()`.
Signal emission does not touch the registry state and is omitted. -/
def register_object (st : OM) (h : Handle) : Option OM :=
  lookup_add st (some h.obj) h.path h.lvm_id h.uuid

/-- `remove_object(dbus_object)`: `_lookup_remove(path)` with `path` from
`dbus_object_path()`.  Bus unregistration and signalling are external. -/
def remove_object (st : OM) (h : Handle) : OM :=
  lookup_remove st h.path

/-- `lookup_update(dbus_obj, new_uuid, new_lvm_id)`: remove then re-add the
handle's path under the new identifiers. -/
def lookup_update (st : OM) (h : Handle) (new_uuid new_lvm_id : Option String) :
    Option OM :=
  lookup_add (lookup_remove st h.path) (some h.obj) h.path new_lvm_id new_uuid

/-- `get_object_by_path(path)`: the stored dbus object, or `None` when the
path is unknown.  A placeholder entry stores `None`, so both cases yield
`none`. -/
def get_object_by_path (st : OM) (path : String) : Option Nat :=
  match dictGet st.objects path with
  | some e => e.obj
  | none => none

/-- `get_object_path_by_lvm_id(lvm_id)`: the indexed path or `'/'`. -/
def get_object_path_by_lvm_id (st : OM) (lvm_id : String) : String :=
  match dictGet st.idx lvm_id with
  | some p => p
  | none => "/"

/-- Body of `_id_lookup` for a truthiness-checked string identifier:
direct index hit, else — when the identifier contains `/` — retry with the
canonical device path (`os.path.realpath`, supplied as `rp`) if it starts
with `/`, or with the hidden-child encoding `vg/[lv]` otherwise. -/
def id_lookup_str (rp : String → String) (st : OM) (s : String) :
    Option String :=
  if s = "" then none
  else
    match dictGet st.idx s with
    | some p => some p
    | none =>
      if strHasSlash s then
        if strStartsSlash s then
          dictGet st.idx (rp s)
        else
          dictGet st.idx (hiddenLv s)
      else none

/-- `_id_lookup(the_id)`: `path` stays `None` unless `the_id` is truthy. -/
def id_lookup (rp : String → String) (st : OM) (the_id : Option String) :
    Option String :=
  match the_id with
  | none => none
  | some s => id_lookup_str rp st s

/-- `_uuid_verify(path, uuid, lvm_id)`: after a hit through `lvm_id`, if the
`uuid` differs, is truthy and is not indexed, re-add the entry under the
query identifiers. -/
def uuid_verify (st : OM) (path : String) (uuid lvm_id : Option String) : OM :=
  if lvm_id ≠ uuid then
    if truthy uuid && !(idMemOpt st.idx uuid) then
      lookup_add_raw st (get_object_by_path st path) path lvm_id uuid
    else st
  else st

/-- `_lvm_id_verify(path, uuid, lvm_id)`: after a hit through `uuid`, if the
`lvm_id` differs, is truthy and is not indexed, re-add the entry under the
query identifiers. -/
def lvm_id_verify (st : OM) (path : String) (uuid lvm_id : Option String) : OM :=
  if lvm_id ≠ uuid then
    if truthy lvm_id && !(idMemOpt st.idx lvm_id) then
      lookup_add_raw st (get_object_by_path st path) path lvm_id uuid
    else st
  else st

/-- The `path_create` callback.  The code compares it by identity against
`pv_obj_path_generate`, so the model records that tag; `mint` is the path
the callback returns when invoked. -/
structure PathFactory where
  isPVGen : Bool
  mint : String
deriving DecidableEq

/-- `path_create == pv_obj_path_generate` (with `None == f` being false). -/
def isPVFactory : Option PathFactory → Bool
  | some f => f.isPVGen
  | none => false

/-- The sanity-check-and-create part of `get_object_path_by_uuid_lvm_id`
(the code after the asserts, the identity-query check and the `[unknown]`
normalization, with `lvm_id'` the possibly re-assigned `lvm_id`):
look up by `uuid`, verify `lvm_id`; else look up by `lvm_id`, verify
`uuid`; else create if `gen_new`. -/
def resolve_body (rp : String → String) (st : OM) (uuid : String)
    (lvm_id' : Option String) (path_create : Option PathFactory)
    (gen_new : Bool) : Option (Option String × OM × Nat) :=
  match id_lookup rp st (some uuid) with
  | some path => some (some path, lvm_id_verify st path (some uuid) lvm_id', 0)
  | none =>
    match id_lookup rp st lvm_id' with
    | some path => some (some path, uuid_verify st path (some uuid) lvm_id', 0)
    | none =>
      if gen_new then
        match path_create with
        | some f =>
          some (some f.mint,
            lookup_add_raw st none f.mint lvm_id' (some uuid), 1)
        | none => none
      else some (none, st, 0)

/-- `get_object_path_by_uuid_lvm_id(uuid, lvm_id, path_create, gen_new)`.
Returns `none` when one of the four `assert`s fires; otherwise
`some (returned path or None, post-state, number of path_create calls)`. -/
def get_object_path_by_uuid_lvm_id (rp : String → String) (st : OM)
    (uuid lvm_id : String) (path_create : Option PathFactory)
    (gen_new : Bool) : Option (Option String × OM × Nat) :=
  if lvm_id = "" then none
  else if uuid = "" then none
  else if gen_new && path_create.isNone then none
  else if gen_new && uuid = lvm_id then none
  else if uuid = lvm_id then
    some (id_lookup rp st (some lvm_id), st, 0)
  else
    resolve_body rp st uuid
      (if isPVFactory path_create && lvm_id = "[unknown]" then none
       else some lvm_id)
      path_create gen_new

/-- Loop body of `GetManagedObjects`: iterate the entry table, call
`emit_data()` on each stored object and collect `rc[path] = props`.
`emit h = none` models a raising property export; a placeholder entry
(`obj = None`) raises on the attribute access itself.  A `none` result is
the `sys.exit(1)` path. -/
def gmo_loop (emit : Nat → Option (String × Nat)) :
    List (String × Entry) → List (String × Nat) → Option (List (String × Nat))
  | [], rc => some rc
  | (_, e) :: rest, rc =>
    match e.obj with
    | none => none
    | some h =>
      match emit h with
      | none => none
      | some pr => gmo_loop emit rest (dictSet rc pr.1 pr.2)

/-- `GetManagedObjects()`: snapshot of every entry, or process exit. -/
def GetManagedObjects (emit : Nat → Option (String × Nat)) (st : OM) :
    Option (List (String × Nat)) :=
  gmo_loop emit st.objects []

/-- One public registry call, for sequences of operations. -/
inductive Cmd where
  | reg (h : Handle)
  | rem (h : Handle)
  | res (uuid lvm_id : String) (pc : Option PathFactory) (gn : Bool)
  | upd (h : Handle) (new_uuid new_lvm_id : Option String)
deriving DecidableEq

/-- Apply one call to the state (`none` when the call dies on an assert). -/
def stepCmd (rp : String → String) (st : OM) : Cmd → Option OM
  | .reg h => register_object st h
  | .rem h => some (remove_object st h)
  | .res uuid lvm_id pc gn =>
    (get_object_path_by_uuid_lvm_id rp st uuid lvm_id pc gn).map
      (fun r => r.2.1)
  | .upd h nu nl => lookup_update st h nu nl

/-- Run a call sequence from the freshly initialised manager. -/
def runSeq (rp : String → String) (cmds : List Cmd) : Option OM :=
  cmds.foldlM (stepCmd rp) OM.empty

/-! ## Invariants of the registry state (spec §3, I1–I4) -/

/-- I1: every entry has at least one non-empty identifier. -/
def I1 (st : OM) : Prop :=
  ∀ pe ∈ st.objects, truthy pe.2.lvm_id = true ∨ truthy pe.2.uuid = true

/-- I2: paths are unique across the entry table. -/
def I2 (st : OM) : Prop := (keysOf st.objects).Nodup

/-- I3: every index value refers to an existing entry, and an identifier
string appears at most once. -/
def I3 (st : OM) : Prop :=
  (∀ kp ∈ st.idx, dictGet st.objects kp.2 ≠ none) ∧ (keysOf st.idx).Nodup

/-- I4: an entry carrying both identifiers (present and distinct) has both
of them indexed to its own path. -/
def I4 (st : OM) : Prop :=
  ∀ pe ∈ st.objects, ∀ l u : String,
    pe.2.lvm_id = some l → pe.2.uuid = some u →
    l ≠ "" → u ≠ "" → l ≠ u →
    dictGet st.idx l = some pe.1 ∧ dictGet st.idx u = some pe.1

/-- Inductive strengthening: every index mapping `k -> p` has a live entry
at `p` that carries `k` as one of its stored identifiers. -/
def IdxSound (st : OM) : Prop :=
  ∀ k p : String, dictGet st.idx k = some p →
    ∃ e, dictGet st.objects p = some e ∧
      (e.lvm_id = some k ∨ e.uuid = some k)

/-- The inductive invariant carried through every operation. -/
def Inv (st : OM) : Prop :=
  I1 st ∧ I2 st ∧ (keysOf st.idx).Nodup ∧ IdxSound st

theorem Inv_empty : Inv OM.empty := by
  refine ⟨?_, ?_, ?_, ?_⟩
  · intro pe hpe; simp [OM.empty] at hpe
  · simp [OM.empty, I2, keysOf]
  · simp [OM.empty, keysOf]
  · intro k p h; simp [OM.empty, dictGet] at h

theorem dictGet_none_of_not_dictMem {γ : Type} {m : List (String × γ)}
    {k : String} (h : dictMem m k = false) : dictGet m k = none := by
  simpa [dictMem, Option.isSome_iff_exists] using h

theorem dictGet_delId {m : List (String × String)} {i : Option String}
    (k : String) (hnd : (keysOf m).Nodup) :
    dictGet (delId m i) k = if i = some k then none else dictGet m k := by
  cases i with
  | none => simp [delId]
  | some s =>
    by_cases hm : dictMem m s
    · by_cases hk : s = k
      · subst hk
        simp [delId, hm, dictGet_dictDel_self m s hnd]
      · have hk' : k ≠ s := fun hh => hk hh.symm
        simp [delId, hm, dictGet_dictDel_of_ne m s k hk', hk]
    · have hm' : dictMem m s = false := by simpa using hm
      by_cases hk : s = k
      · subst hk
        simp [delId, hm', dictGet_none_of_not_dictMem hm']
      · simp [delId, hm', hk]

theorem nodupKeys_delId {m : List (String × String)} {i : Option String}
    (hnd : (keysOf m).Nodup) : (keysOf (delId m i)).Nodup := by
  cases i with
  | none => simpa [delId] using hnd
  | some s =>
    by_cases hm : dictMem m s
    · simpa [delId, hm] using nodupKeys_dictDel m s hnd
    · simpa [delId, hm] using hnd

theorem dictGet_addId {m : List (String × String)} {i : Option String}
    (k q : String) :
    dictGet (addId m i q) k =
      if i = some k ∧ k ≠ "" then some q else dictGet m k := by
  cases i with
  | none => simp [addId]
  | some s =>
    by_cases hs : s = ""
    · subst hs
      by_cases hk : k = ""
      · subst hk; simp [addId]
      · have hcond : ¬(some "" = some k ∧ ¬k = "") := fun hh =>
          hk (Option.some.inj hh.1).symm
        rw [if_neg hcond]
        simp [addId]
    · by_cases hk : s = k
      · subst hk
        simp [addId, hs, dictGet_dictSet, fun hh : s = "" => hs hh]
      · have hk' : ¬k = s := fun hh => hk hh.symm
        simp [addId, hs, dictGet_dictSet, hk, hk']

theorem nodupKeys_addId {m : List (String × String)} {i : Option String}
    {q : String} (hnd : (keysOf m).Nodup) : (keysOf (addId m i q)).Nodup := by
  cases i with
  | none => simpa [addId] using hnd
  | some s =>
    by_cases hs : s = ""
    · simpa [addId, hs] using hnd
    · simpa [addId, hs] using nodupKeys_dictSet m s q hnd

theorem mem_objects_delPath {st : OM} {p : String} {pe : String × Entry}
    (h : pe ∈ (lookup_remove st p).objects) : pe ∈ st.objects := by
  unfold lookup_remove at h
  cases hobj : dictGet st.objects p with
  | none => rw [hobj] at h; exact h
  | some e =>
    rw [hobj] at h
    exact mem_of_mem_dictDel h

theorem lookup_remove_objects {st : OM} (p q : String) (h2 : I2 st) :
    dictGet (lookup_remove st p).objects q =
      if q = p then none else dictGet st.objects q := by
  unfold lookup_remove
  cases hobj : dictGet st.objects p with
  | none =>
    by_cases hq : q = p
    · subst hq; simp [hobj]
    · simp [hq]
  | some e =>
    by_cases hq : q = p
    · subst hq
      simp [dictGet_dictDel_self st.objects q h2]
    · simp [hq, dictGet_dictDel_of_ne st.objects p q hq]

theorem Inv_lookup_remove {st : OM} (p : String) (hinv : Inv st) :
    Inv (lookup_remove st p) := by
  obtain ⟨h1, h2, h3, h4⟩ := hinv
  cases hobj : dictGet st.objects p with
  | none =>
    unfold Inv lookup_remove
    rw [hobj]
    exact ⟨h1, h2, h3, h4⟩
  | some e =>
    refine ⟨?_, ?_, ?_, ?_⟩
    · intro pe hpe
      exact h1 pe (mem_objects_delPath hpe)
    · unfold lookup_remove; rw [hobj]
      exact nodupKeys_dictDel st.objects p h2
    · unfold lookup_remove; rw [hobj]
      exact nodupKeys_delId (nodupKeys_delId h3)
    · intro k q hk
      unfold lookup_remove at hk
      rw [hobj] at hk
      simp only at hk
      rw [dictGet_delId k (nodupKeys_delId h3)] at hk
      by_cases hu : e.uuid = some k
      · simp [hu] at hk
      · rw [if_neg hu, dictGet_delId k h3] at hk
        by_cases hl : e.lvm_id = some k
        · simp [hl] at hk
        · rw [if_neg hl] at hk
          obtain ⟨e₂, he₂, hid₂⟩ := h4 k q hk
          have hqp : q ≠ p := by
            intro hqp; subst hqp
            rw [hobj] at he₂
            cases he₂
            rcases hid₂ with hh | hh
            · exact hl hh
            · exact hu hh
          refine ⟨e₂, ?_, hid₂⟩
          rw [lookup_remove_objects p q h2, if_neg hqp]
          exact he₂

theorem lookup_remove_idx_ne_path {st : OM} {p k : String} (hinv : Inv st) :
    dictGet (lookup_remove st p).idx k ≠ some p := by
  intro hk
  have hinv' := Inv_lookup_remove p hinv
  obtain ⟨e₂, he₂, _⟩ := hinv'.2.2.2 k p hk
  rw [lookup_remove_objects p p hinv.2.1, if_pos rfl] at he₂
  cases he₂

theorem Inv_lookup_add_raw {st : OM} {obj : Option Nat} {p : String}
    {l u : Option String} (hinv : Inv st) (hlu : truthy l || truthy u = true) :
    Inv (lookup_add_raw st obj p l u) := by
  have hinv1 := Inv_lookup_remove p hinv
  obtain ⟨h1, h2, h3, h4⟩ := hinv1
  refine ⟨?_, ?_, ?_, ?_⟩
  · intro pe hpe
    rcases eq_or_mem_of_mem_dictSet hpe with hpe | hpe
    · subst hpe
      simpa using Bool.or_eq_true_iff.mp hlu
    · exact h1 pe hpe
  · exact nodupKeys_dictSet _ p _ h2
  · exact nodupKeys_addId (nodupKeys_addId h3)
  · intro k q hk
    unfold lookup_add_raw at hk
    simp only at hk
    rw [dictGet_addId k p] at hk
    by_cases hu : u = some k ∧ k ≠ ""
    · rw [if_pos hu] at hk
      cases hk
      refine ⟨⟨obj, l, u⟩, ?_, Or.inr hu.1⟩
      show dictGet (dictSet (lookup_remove st p).objects p _) p = _
      rw [dictGet_dictSet, if_pos rfl]
    · rw [if_neg hu, dictGet_addId k p] at hk
      by_cases hl : l = some k ∧ k ≠ ""
      · rw [if_pos hl] at hk
        cases hk
        refine ⟨⟨obj, l, u⟩, ?_, Or.inl hl.1⟩
        show dictGet (dictSet (lookup_remove st p).objects p _) p = _
        rw [dictGet_dictSet, if_pos rfl]
      · rw [if_neg hl] at hk
        have hqp : q ≠ p := fun hqp =>
          lookup_remove_idx_ne_path hinv (hqp ▸ hk)
        obtain ⟨e₂, he₂, hid₂⟩ := h4 k q hk
        refine ⟨e₂, ?_, hid₂⟩
        show dictGet (dictSet (lookup_remove st p).objects p _) q = _
        rw [dictGet_dictSet, if_neg hqp]
        exact he₂

theorem Inv_uuid_verify {st : OM} {path : String} {uuid lvm_id : Option String}
    (hinv : Inv st) : Inv (uuid_verify st path uuid lvm_id) := by
  unfold uuid_verify
  split_ifs with hne hg
  · exact Inv_lookup_add_raw hinv (by
      rcases Bool.and_eq_true_iff.mp hg with ⟨hu, _⟩
      simp [hu])
  · exact hinv
  · exact hinv

theorem Inv_lvm_id_verify {st : OM} {path : String} {uuid lvm_id : Option String}
    (hinv : Inv st) : Inv (lvm_id_verify st path uuid lvm_id) := by
  unfold lvm_id_verify
  split_ifs with hne hg
  · exact Inv_lookup_add_raw hinv (by
      rcases Bool.and_eq_true_iff.mp hg with ⟨hl, _⟩
      simp [hl])
  · exact hinv
  · exact hinv

theorem Inv_resolve_body {rp : String → String} {st : OM} {uuid : String}
    {lv : Option String} {pc : Option PathFactory} {gn : Bool}
    {r : Option String} {st' : OM} {n : Nat}
    (hres : resolve_body rp st uuid lv pc gn = some (r, st', n))
    (hu0 : uuid ≠ "") (hinv : Inv st) : Inv st' := by
  unfold resolve_body at hres
  cases hu : id_lookup rp st (some uuid) with
  | some path =>
    rw [hu] at hres
    simp only [Option.some.injEq, Prod.mk.injEq] at hres
    rw [← hres.2.1]
    exact Inv_lvm_id_verify hinv
  | none =>
    rw [hu] at hres
    cases hl : id_lookup rp st lv with
    | some path =>
      rw [hl] at hres
      simp only [Option.some.injEq, Prod.mk.injEq] at hres
      rw [← hres.2.1]
      exact Inv_uuid_verify hinv
    | none =>
      rw [hl] at hres
      by_cases hgn : gn = true
      · rw [if_pos hgn] at hres
        cases pc with
        | none => simp at hres
        | some f =>
          simp only [Option.some.injEq, Prod.mk.injEq] at hres
          rw [← hres.2.1]
          refine Inv_lookup_add_raw hinv ?_
          simp [truthy, hu0]
      · rw [if_neg hgn] at hres
        simp only [Option.some.injEq, Prod.mk.injEq] at hres
        rw [← hres.2.1]
        exact hinv

theorem Inv_resolve {rp : String → String} {st : OM} {uuid lvm_id : String}
    {pc : Option PathFactory} {gn : Bool} {r : Option String} {st' : OM}
    {n : Nat}
    (hres : get_object_path_by_uuid_lvm_id rp st uuid lvm_id pc gn =
      some (r, st', n))
    (hinv : Inv st) : Inv st' := by
  unfold get_object_path_by_uuid_lvm_id at hres
  split_ifs at hres with hl0 hu0 hgp hgu hid hpv
  all_goals first
    | exact Option.noConfusion hres
    | (cases hres; exact hinv)
    | exact Inv_resolve_body hres hu0 hinv

theorem Inv_stepCmd {rp : String → String} {st st' : OM} {c : Cmd}
    (hstep : stepCmd rp st c = some st') (hinv : Inv st) : Inv st' := by
  cases c with
  | reg h =>
    simp only [stepCmd, register_object, lookup_add] at hstep
    split_ifs at hstep with hg
    cases hstep
    exact Inv_lookup_add_raw hinv (by simpa using hg)
  | rem h =>
    simp only [stepCmd, Option.some.injEq] at hstep
    rw [← hstep]
    exact Inv_lookup_remove _ hinv
  | res uuid lvm_id pc gn =>
    simp only [stepCmd] at hstep
    cases hres : get_object_path_by_uuid_lvm_id rp st uuid lvm_id pc gn with
    | none => rw [hres] at hstep; cases hstep
    | some r =>
      rw [hres] at hstep
      have hstep2 : r.2.1 = st' := by simpa using hstep
      obtain ⟨r1, r2, r3⟩ := r
      exact hstep2 ▸ Inv_resolve hres hinv
  | upd h nu nl =>
    simp only [stepCmd, lookup_update, lookup_add] at hstep
    split_ifs at hstep with hg
    cases hstep
    exact Inv_lookup_add_raw (Inv_lookup_remove _ hinv) (by simpa using hg)

theorem Inv_foldSeq {rp : String → String} (cmds : List Cmd) :
    ∀ st st' : OM, Inv st → cmds.foldlM (stepCmd rp) st = some st' →
      Inv st' := by
  induction cmds with
  | nil =>
    intro st st' hinv hrun
    simp only [List.foldlM_nil] at hrun
    cases hrun
    exact hinv
  | cons c cs ih =>
    intro st st' hinv hrun
    simp only [List.foldlM_cons] at hrun
    cases hc : stepCmd rp st c with
    | none => rw [hc] at hrun; cases hrun
    | some st1 =>
      rw [hc] at hrun
      exact ih st1 st' (Inv_stepCmd hc hinv) hrun

theorem Inv_runSeq {rp : String → String} {cmds : List Cmd} {st : OM}
    (hrun : runSeq rp cmds = some st) : Inv st :=
  Inv_foldSeq cmds OM.empty st Inv_empty hrun

/-! ## Helper lemmas about strings, `id_lookup` and the resolve shape -/

theorem mk_toList (s : String) : String.mk s.toList = s := by
  cases s with
  | mk d => rfl

theorem toList_slash_append (c d : String) :
    (c ++ "/" ++ d).toList = c.toList ++ '/' :: d.toList := by
  cases c; cases d; simp [String.toList]

theorem toList_eq_nil_iff (s : String) : s.toList = [] ↔ s = "" := by
  constructor
  · intro h
    rw [← mk_toList s, h]
  · intro h
    subst h
    rfl

theorem takeWhile_until_slash (l1 l2 : List Char)
    (h : ∀ x ∈ l1, (x != '/') = true) :
    (l1 ++ '/' :: l2).takeWhile (fun c => c != '/') = l1 ∧
    (l1 ++ '/' :: l2).dropWhile (fun c => c != '/') = '/' :: l2 := by
  induction l1 with
  | nil => simp [List.takeWhile, List.dropWhile]
  | cons a l1 ih =>
    have ha : (a != '/') = true := h a (List.mem_cons_self a l1)
    have ih2 := ih (fun x hx => h x (List.mem_cons_of_mem a hx))
    constructor
    · rw [List.cons_append,
        List.takeWhile_cons_of_pos (p := fun c => c != '/') ha, ih2.1]
    · rw [List.cons_append,
        List.dropWhile_cons_of_pos (p := fun c => c != '/') ha, ih2.2]

theorem not_slash_of_no_slash {c : String} (hc : strHasSlash c = false) :
    ∀ x ∈ c.toList, (x != '/') = true := by
  intro x hx
  have hns : '/' ∉ c.toList := by simpa [strHasSlash] using hc
  simp only [bne_iff_ne, ne_eq]
  intro hxe
  exact hns (hxe ▸ hx)

theorem splitOnce_append {c d : String} (hc : strHasSlash c = false) :
    splitOnce (c ++ "/" ++ d) = (c, d) := by
  have htw := takeWhile_until_slash c.toList d.toList (not_slash_of_no_slash hc)
  unfold splitOnce
  rw [toList_slash_append, htw.1, htw.2]
  simp [mk_toList]

theorem hiddenLv_append {c d : String} (hc : strHasSlash c = false) :
    hiddenLv (c ++ "/" ++ d) = c ++ "/" ++ "[" ++ d ++ "]" := by
  unfold hiddenLv
  rw [splitOnce_append hc]

theorem strHasSlash_append {c d : String} :
    strHasSlash (c ++ "/" ++ d) = true := by
  simp [strHasSlash, toList_slash_append]

theorem strStartsSlash_append {c d : String} (hc : strHasSlash c = false)
    (hcne : c ≠ "") : strStartsSlash (c ++ "/" ++ d) = false := by
  cases hcl : c.toList with
  | nil => exact absurd ((toList_eq_nil_iff c).mp hcl) hcne
  | cons x xs =>
    have hx : (x != '/') = true :=
      not_slash_of_no_slash hc x (by rw [hcl]; exact List.mem_cons_self x xs)
    unfold strStartsSlash
    rw [toList_slash_append, hcl]
    simp only [List.cons_append, List.head?]
    simp only [bne_iff_ne, ne_eq] at hx
    simp [hx]

theorem strHasSlash_of_starts {s : String} (h : strStartsSlash s = true) :
    strHasSlash s = true := by
  unfold strStartsSlash at h
  unfold strHasSlash
  cases hl : s.toList with
  | nil => rw [hl] at h; simp at h
  | cons x xs =>
    rw [hl] at h
    simp only [List.head?, Option.some.injEq, beq_iff_eq] at h
    simp [h]

theorem id_lookup_some_eq (rp : String → String) (st : OM) (s : String) :
    id_lookup rp st (some s) = id_lookup_str rp st s := rfl

theorem id_lookup_direct {rp : String → String} {st : OM} {s p : String}
    (hs : s ≠ "") (hget : dictGet st.idx s = some p) :
    id_lookup rp st (some s) = some p := by
  rw [id_lookup_some_eq]
  unfold id_lookup_str
  rw [if_neg hs, hget]

theorem id_lookup_none_direct {rp : String → String} {st : OM} {s : String}
    (hs : s ≠ "") (hnone : id_lookup rp st (some s) = none) :
    dictGet st.idx s = none := by
  rw [id_lookup_some_eq] at hnone
  unfold id_lookup_str at hnone
  rw [if_neg hs] at hnone
  cases hget : dictGet st.idx s with
  | none => rfl
  | some p =>
    rw [hget] at hnone
    exact Option.noConfusion hnone

theorem id_lookup_some_shape {rp : String → String} {st : OM}
    {lv : Option String} {p : String} (h : id_lookup rp st lv = some p) :
    ∃ ls, lv = some ls ∧ ls ≠ "" := by
  cases lv with
  | none => cases h
  | some s =>
    refine ⟨s, rfl, ?_⟩
    intro hse
    subst hse
    rw [id_lookup_some_eq] at h
    unfold id_lookup_str at h
    rw [if_pos rfl] at h
    cases h

/-- Resolving a non-empty index key through its own dictionary value:
if `dictGet st.idx s = some q` then a plain `id_lookup` on `s` yields `q`. -/
theorem id_lookup_eq_of_direct {rp : String → String} {st : OM} {s q p : String}
    (hget : dictGet st.idx s = some q)
    (h : id_lookup rp st (some s) = some p) : q = p := by
  by_cases hs : s = ""
  · subst hs
    rw [id_lookup_some_eq] at h
    unfold id_lookup_str at h
    rw [if_pos rfl] at h
    cases h
  · rw [id_lookup_direct hs hget] at h
    exact Option.some.inj h

/-- `lookup_remove` never deletes an index mapping whose key is not among
the removed entry's stored identifiers. -/
theorem lookup_remove_idx_frame {st : OM} {p k : String}
    (hnd : (keysOf st.idx).Nodup)
    (hk : ∀ e₀, dictGet st.objects p = some e₀ →
      e₀.lvm_id ≠ some k ∧ e₀.uuid ≠ some k) :
    dictGet (lookup_remove st p).idx k = dictGet st.idx k := by
  unfold lookup_remove
  cases hobj : dictGet st.objects p with
  | none => rfl
  | some e =>
    obtain ⟨hl, hu⟩ := hk e hobj
    simp only
    rw [dictGet_delId k (nodupKeys_delId hnd), if_neg hu,
      dictGet_delId k hnd, if_neg hl]

/-- `lookup_remove` only ever deletes index mappings. -/
theorem lookup_remove_idx_some {st : OM} {p k q : String}
    (hnd : (keysOf st.idx).Nodup)
    (h : dictGet (lookup_remove st p).idx k = some q) :
    dictGet st.idx k = some q := by
  unfold lookup_remove at h
  cases hobj : dictGet st.objects p with
  | none => rw [hobj] at h; exact h
  | some e =>
    rw [hobj] at h
    simp only at h
    rw [dictGet_delId k (nodupKeys_delId hnd)] at h
    by_cases hu : e.uuid = some k
    · simp [hu] at h
    · rw [if_neg hu, dictGet_delId k hnd] at h
      by_cases hl : e.lvm_id = some k
      · simp [hl] at h
      · rw [if_neg hl] at h
        exact h

/-- What `lookup_add_raw` leaves in the index at an arbitrary key. -/
theorem lookup_add_raw_idx_get (st : OM) (obj : Option Nat) (p : String)
    (l u : Option String) (k : String) :
    dictGet (lookup_add_raw st obj p l u).idx k =
      if u = some k ∧ k ≠ "" then some p
      else if l = some k ∧ k ≠ "" then some p
      else dictGet (lookup_remove st p).idx k := by
  unfold lookup_add_raw
  simp only
  rw [dictGet_addId k p, dictGet_addId k p]

/-- The entry `lookup_add_raw` stores at its own path. -/
theorem lookup_add_raw_objects_self (st : OM) (obj : Option Nat) (p : String)
    (l u : Option String) :
    dictGet (lookup_add_raw st obj p l u).objects p = some ⟨obj, l, u⟩ := by
  unfold lookup_add_raw
  simp only
  rw [dictGet_dictSet, if_pos rfl]

theorem lookup_remove_absent {st : OM} {p : String}
    (h : dictGet st.objects p = none) : lookup_remove st p = st := by
  unfold lookup_remove
  rw [h]

/-- With all four asserts passing and `uuid != lvm_id`, the operation is
the normalization followed by `resolve_body`. -/
theorem resolve_eq_body (rp : String → String) (st : OM) (uuid lvm_id : String)
    (pc : Option PathFactory) (gn : Bool)
    (hl0 : lvm_id ≠ "") (hu0 : uuid ≠ "") (hne : uuid ≠ lvm_id)
    (hgp : gn = true → pc.isNone = false) :
    get_object_path_by_uuid_lvm_id rp st uuid lvm_id pc gn =
      resolve_body rp st uuid
        (if isPVFactory pc && lvm_id = "[unknown]" then none else some lvm_id)
        pc gn := by
  have g3 : (gn && pc.isNone) = false := by
    cases gn with
    | false => simp
    | true => simp [hgp rfl]
  have g4 : (gn && decide (uuid = lvm_id)) = false := by
    simp [hne]
  unfold get_object_path_by_uuid_lvm_id
  rw [if_neg hl0, if_neg hu0]
  simp only [g3, g4, Bool.false_eq_true, if_false, if_neg hne]

theorem resolve_body_hit_uuid {rp : String → String} {st : OM} {uuid : String}
    {lv : Option String} {pc : Option PathFactory} {gn : Bool} {p : String}
    (hu : id_lookup rp st (some uuid) = some p) :
    resolve_body rp st uuid lv pc gn =
      some (some p, lvm_id_verify st p (some uuid) lv, 0) := by
  unfold resolve_body
  rw [hu]

theorem resolve_body_hit_lvm {rp : String → String} {st : OM} {uuid : String}
    {lv : Option String} {pc : Option PathFactory} {gn : Bool} {p : String}
    (hu : id_lookup rp st (some uuid) = none)
    (hl : id_lookup rp st lv = some p) :
    resolve_body rp st uuid lv pc gn =
      some (some p, uuid_verify st p (some uuid) lv, 0) := by
  unfold resolve_body
  rw [hu, hl]

theorem resolve_body_create {rp : String → String} {st : OM} {uuid : String}
    {lv : Option String} {f : PathFactory}
    (hu : id_lookup rp st (some uuid) = none)
    (hl : id_lookup rp st lv = none) :
    resolve_body rp st uuid lv (some f) true =
      some (some f.mint, lookup_add_raw st none f.mint lv (some uuid), 1) := by
  unfold resolve_body
  rw [hu, hl]
  rfl

theorem resolve_body_nocreate {rp : String → String} {st : OM} {uuid : String}
    {lv : Option String} {pc : Option PathFactory}
    (hu : id_lookup rp st (some uuid) = none)
    (hl : id_lookup rp st lv = none) :
    resolve_body rp st uuid lv pc false = some (none, st, 0) := by
  unfold resolve_body
  rw [hu, hl]
  rfl

/-- A successful `get_object_path_by_uuid_lvm_id` implies its asserts held. -/
theorem resolve_some_guards {rp : String → String} {st : OM}
    {uuid lvm_id : String} {pc : Option PathFactory} {gn : Bool}
    {r : Option String × OM × Nat}
    (h : get_object_path_by_uuid_lvm_id rp st uuid lvm_id pc gn = some r) :
    lvm_id ≠ "" ∧ uuid ≠ "" ∧ (gn = true → pc.isNone = false) ∧
      (gn = true → uuid ≠ lvm_id) := by
  unfold get_object_path_by_uuid_lvm_id at h
  by_cases c1 : lvm_id = ""
  · rw [if_pos c1] at h; cases h
  rw [if_neg c1] at h
  by_cases c2 : uuid = ""
  · rw [if_pos c2] at h; cases h
  rw [if_neg c2] at h
  by_cases c3 : (gn && pc.isNone) = true
  · rw [if_pos c3] at h; cases h
  rw [if_neg c3] at h
  by_cases c4 : (gn && decide (uuid = lvm_id)) = true
  · rw [if_pos c4] at h; cases h
  refine ⟨c1, c2, ?_, ?_⟩
  · intro hgn
    cases hpc : pc.isNone
    · rfl
    · exact absurd (by simp [hgn, hpc]) c3
  · intro hgn hul
    exact absurd (by simp [hgn, hul]) c4

/-! ## Claim C1 -/

/-- Register two objects that share the `lvm_id` string `"L"`, then remove
the first: removing it also deletes the index key `"L"`, which by then
points at the second object's path. -/
def c1cmds : List Cmd :=
  [Cmd.reg ⟨1, "/o1", some "L", some "U1"⟩,
   Cmd.reg ⟨2, "/o2", some "L", some "U2"⟩,
   Cmd.rem ⟨1, "/o1", some "L", some "U1"⟩]

/-- The state reached by `c1cmds`: the surviving entry still stores
`lvm_id = "L"`, but `"L"` is no longer in the index. -/
def c1st : OM :=
  ⟨[("/o2", ⟨some 2, some "L", some "U2"⟩)], [("U2", "/o2")]⟩

/-- C1 counterexample: a three-call sequence from the empty registry
reaches a state in which invariant I4 fails — the surviving entry has both
identifiers present and distinct, yet its `lvm_id` is not indexed — so the
claim that I1–I4 hold after every sequence of register/remove/
resolve_or_create/update calls is false. -/
theorem c1_i4_fails : runSeq (fun s => s) c1cmds = some c1st ∧ ¬ I4 c1st := by
  constructor
  · decide
  · intro h
    have hmem : ("/o2", (⟨some 2, some "L", some "U2"⟩ : Entry)) ∈
        c1st.objects := by
      simp [c1st]
    have := h _ hmem "L" "U2" rfl rfl (by decide) (by decide) (by decide)
    simp [c1st, dictGet] at this

/-- C1 (amended): for every finite sequence of register, remove,
resolve_or_create and update (lookup_update) calls starting from the empty
registry, invariants I1, I2 and I3 hold in the resulting state: every
entry has at least one non-empty identifier, paths are unique, and every
identifier-index value refers to an existing entry with each identifier
string appearing at most once.  (I4 is dropped: identifier collisions
across entries can leave a stored identifier unindexed, see
`c1_i4_fails`.) -/
theorem c1_invariants_hold (rp : String → String) (cmds : List Cmd) (st : OM)
    (hrun : runSeq rp cmds = some st) : I1 st ∧ I2 st ∧ I3 st := by
  obtain ⟨h1, h2, h3, h4⟩ := Inv_runSeq hrun
  refine ⟨h1, h2, ?_, h3⟩
  intro kp hkp
  have hmem : (kp.1, kp.2) ∈ st.idx := by simpa using hkp
  have hget : dictGet st.idx kp.1 = some kp.2 := dictGet_of_mem_nodup h3 hmem
  obtain ⟨e, he, _⟩ := h4 kp.1 kp.2 hget
  simp [he]

theorem c1_invariants_hold_witness :
    runSeq (fun s => s) c1cmds = some c1st ∧ (I1 c1st ∧ I2 c1st ∧ I3 c1st) :=
  ⟨by decide, c1_invariants_hold (fun s => s) c1cmds c1st (by decide)⟩

/-! ## Claim C5 -/

/-- C5: in identity-query mode (`stable_id == display_id`) with
`create_if_missing` false, the call returns the pure identifier lookup and
leaves the registry state exactly unchanged (and factory-call count 0);
with `create_if_missing` true, the call dies on its precondition assert
before touching any state. -/
theorem c5_identity_query (rp : String → String) (st : OM) (u : String)
    (pc : Option PathFactory) (hu : u ≠ "") :
    get_object_path_by_uuid_lvm_id rp st u u pc false =
      some (id_lookup rp st (some u), st, 0) ∧
    get_object_path_by_uuid_lvm_id rp st u u pc true = none := by
  constructor
  · unfold get_object_path_by_uuid_lvm_id
    simp [hu]
  · unfold get_object_path_by_uuid_lvm_id
    cases hpc : pc.isNone with
    | true => simp [hu, hpc]
    | false => simp [hu, hpc]

theorem c5_identity_query_witness :
    ("a" : String) ≠ "" ∧
    (get_object_path_by_uuid_lvm_id (fun s => s) OM.empty "a" "a" none false =
      some (id_lookup (fun s => s) OM.empty (some "a"), OM.empty, 0) ∧
    get_object_path_by_uuid_lvm_id (fun s => s) OM.empty "a" "a" none true =
      none) :=
  ⟨by decide, c5_identity_query (fun s => s) OM.empty "a" none (by decide)⟩

/-! ## Claim C7 -/

/-- C7: for a non-empty identifier, `_id_lookup` returns the directly
indexed path on a direct hit; on a direct miss it falls back to the
hidden-child encoding `container/[child]` when the identifier contains `/`
but does not start with it (splitting at the first `/`), to the canonical
(`realpath`) form when it starts with `/`, and returns absent when it
contains no `/` at all. -/
theorem c7_id_lookup_fallbacks (rp : String → String) (st : OM) (s : String)
    (hs : s ≠ "") :
    (∀ p, dictGet st.idx s = some p → id_lookup rp st (some s) = some p)
    ∧ (dictGet st.idx s = none →
        ∀ c d : String, s = c ++ "/" ++ d → strHasSlash c = false → c ≠ "" →
          id_lookup rp st (some s) =
            dictGet st.idx (c ++ "/" ++ "[" ++ d ++ "]"))
    ∧ (dictGet st.idx s = none → strStartsSlash s = true →
        id_lookup rp st (some s) = dictGet st.idx (rp s))
    ∧ (dictGet st.idx s = none → strHasSlash s = false →
        id_lookup rp st (some s) = none) := by
  refine ⟨?_, ?_, ?_, ?_⟩
  · intro p hget
    exact id_lookup_direct hs hget
  · intro hget c d hcd hc hcne
    subst hcd
    rw [id_lookup_some_eq]
    unfold id_lookup_str
    rw [if_neg hs, hget, if_pos strHasSlash_append,
      if_neg (by rw [strStartsSlash_append hc hcne]; exact Bool.false_ne_true),
      hiddenLv_append hc]
  · intro hget hstart
    rw [id_lookup_some_eq]
    unfold id_lookup_str
    rw [if_neg hs, hget, if_pos (strHasSlash_of_starts hstart), if_pos hstart]
  · intro hget hslash
    rw [id_lookup_some_eq]
    unfold id_lookup_str
    rw [if_neg hs, hget,
      if_neg (by rw [hslash]; exact Bool.false_ne_true)]

/-- State for the C7 witness: only the hidden-child form is indexed. -/
def c7st : OM :=
  ⟨[("/o1", ⟨some 1, some "vg0/[lv0]", some "U1"⟩)],
   [("vg0/[lv0]", "/o1"), ("U1", "/o1")]⟩

theorem c7_id_lookup_fallbacks_witness :
    ("vg0/lv0" : String) ≠ "" ∧
    (dictGet c7st.idx "vg0/lv0" = none ∧ ("vg0/lv0" : String) = "vg0" ++ "/" ++ "lv0" ∧
      strHasSlash "vg0" = false ∧ ("vg0" : String) ≠ "") ∧
    id_lookup (fun s => s) c7st (some "vg0/lv0") =
      dictGet c7st.idx ("vg0" ++ "/" ++ "[" ++ "lv0" ++ "]") :=
  ⟨by decide, ⟨by decide, by decide, by decide, by decide⟩,
    (c7_id_lookup_fallbacks (fun s => s) c7st "vg0/lv0" (by decide)).2.1
      (by decide) "vg0" "lv0" (by decide) (by decide) (by decide)⟩

/-! ## Claim C8 -/

/-- C8: immediately after `register_object(h)`, `get_object_by_path` at
`h`'s path returns `h`'s object; a pre-existing entry at that path has been
purged first together with its index mappings (its old identifiers, unless
re-used by `h`, are no longer indexed); and immediately after
`remove_object(h)`, `get_object_by_path` at `h`'s path returns absent. -/
theorem c8_register_then_lookup (st : OM) (h : Handle) (st' : OM)
    (hnd : (keysOf st.idx).Nodup)
    (hreg : register_object st h = some st') :
    get_object_by_path st' h.path = some h.obj
    ∧ (∀ e₀, dictGet st.objects h.path = some e₀ →
        ∀ s : String, (e₀.lvm_id = some s ∨ e₀.uuid = some s) →
          h.lvm_id ≠ some s → h.uuid ≠ some s →
          dictGet st'.idx s = none)
    ∧ (∀ st₀ : OM, ∀ h₀ : Handle, I2 st₀ →
        get_object_by_path (remove_object st₀ h₀) h₀.path = none) := by
  unfold register_object lookup_add at hreg
  split_ifs at hreg with hg
  cases hreg
  refine ⟨?_, ?_, ?_⟩
  · unfold get_object_by_path
    rw [lookup_add_raw_objects_self]
  · intro e₀ he₀ s hs hl hu
    rw [lookup_add_raw_idx_get]
    rw [if_neg (fun hh => hu hh.1), if_neg (fun hh => hl hh.1)]
    unfold lookup_remove
    rw [he₀]
    simp only
    rcases hs with hs | hs
    · rw [dictGet_delId s (nodupKeys_delId hnd)]
      by_cases hus : e₀.uuid = some s
      · rw [if_pos hus]
      · rw [if_neg hus, dictGet_delId s hnd, if_pos hs]
    · rw [dictGet_delId s (nodupKeys_delId hnd), if_pos hs]
  · intro st₀ h₀ h2
    unfold get_object_by_path remove_object
    rw [lookup_remove_objects h₀.path h₀.path h2, if_pos rfl]

/-- Pre-state for the C8 witness: a placeholder already sits at `/o1`. -/
def c8st : OM :=
  ⟨[("/o1", ⟨none, some "old", some "u0"⟩)], [("old", "/o1"), ("u0", "/o1")]⟩

/-- Post-state for the C8 witness. -/
def c8st2 : OM :=
  ⟨[("/o1", ⟨some 5, some "newL", some "newU"⟩)],
   [("newL", "/o1"), ("newU", "/o1")]⟩

theorem c8_register_then_lookup_witness :
    (keysOf c8st.idx).Nodup ∧
    register_object c8st ⟨5, "/o1", some "newL", some "newU"⟩ = some c8st2 ∧
    (get_object_by_path c8st2 "/o1" = some 5
      ∧ (∀ e₀, dictGet c8st.objects "/o1" = some e₀ →
          ∀ s : String, (e₀.lvm_id = some s ∨ e₀.uuid = some s) →
            (some "newL" : Option String) ≠ some s →
            (some "newU" : Option String) ≠ some s →
            dictGet c8st2.idx s = none)
      ∧ (∀ st₀ : OM, ∀ h₀ : Handle, I2 st₀ →
          get_object_by_path (remove_object st₀ h₀) h₀.path = none)) :=
  ⟨by decide, by decide,
    c8_register_then_lookup c8st ⟨5, "/o1", some "newL", some "newU"⟩ c8st2
      (by decide) (by decide)⟩

/-! ## Claim C10 -/

/-- C10: a path freshly minted by the creation branch of
`get_object_path_by_uuid_lvm_id` holds a placeholder entry whose stored
object is `None`, so `get_object_by_path` on it returns absent — exactly
as for a path that was never created — even though an identifier lookup on
the `uuid` resolves to it; and in general any state whose entry at `p` is
a placeholder answers `get_object_by_path p` with absent. -/
theorem c10_placeholder_invisible (rp : String → String) (st : OM)
    (uuid lvm_id : String) (f : PathFactory) (p : String) (st' : OM)
    (hres : get_object_path_by_uuid_lvm_id rp st uuid lvm_id (some f) true =
      some (some p, st', 1)) :
    get_object_by_path st' p = none
    ∧ dictGet st'.objects p ≠ none
    ∧ id_lookup rp st' (some uuid) = some p
    ∧ (∀ st₂ : OM, ∀ e : Entry, dictGet st₂.objects p = some e →
        e.obj = none → get_object_by_path st₂ p = none) := by
  obtain ⟨hl0, hu0, hgp, hgu⟩ := resolve_some_guards hres
  rw [resolve_eq_body rp st uuid lvm_id (some f) true hl0 hu0 (hgu rfl)
    (hgp)] at hres
  generalize hlv : (if isPVFactory (some f) && lvm_id = "[unknown]"
      then none else some lvm_id) = lv at hres
  cases hu : id_lookup rp st (some uuid) with
  | some q =>
    rw [resolve_body_hit_uuid hu] at hres
    simp at hres
  | none =>
    cases hl : id_lookup rp st lv with
    | some q =>
      rw [resolve_body_hit_lvm hu hl] at hres
      simp at hres
    | none =>
      rw [resolve_body_create hu hl] at hres
      simp only [Option.some.injEq, Prod.mk.injEq, Option.some.injEq] at hres
      obtain ⟨hp, hst', _⟩ := hres
      subst hp
      subst hst'
      refine ⟨?_, ?_, ?_, ?_⟩
      · unfold get_object_by_path
        rw [lookup_add_raw_objects_self]
      · rw [lookup_add_raw_objects_self]
        exact fun hh => Option.noConfusion hh
      · refine id_lookup_direct hu0 ?_
        rw [lookup_add_raw_idx_get]
        rw [if_pos ⟨rfl, hu0⟩]
      · intro st₂ e he hobj
        unfold get_object_by_path
        rw [he]
        exact hobj

theorem c10_placeholder_invisible_witness :
    get_object_path_by_uuid_lvm_id (fun s => s) OM.empty "u" "v"
        (some ⟨false, "/p1"⟩) true =
      some (some "/p1",
        lookup_add_raw OM.empty none "/p1" (some "v") (some "u"), 1) ∧
    (get_object_by_path
        (lookup_add_raw OM.empty none "/p1" (some "v") (some "u")) "/p1" = none
      ∧ dictGet (lookup_add_raw OM.empty none "/p1" (some "v")
          (some "u")).objects "/p1" ≠ none
      ∧ id_lookup (fun s => s)
          (lookup_add_raw OM.empty none "/p1" (some "v") (some "u"))
          (some "u") = some "/p1"
      ∧ (∀ st₂ : OM, ∀ e : Entry, dictGet st₂.objects "/p1" = some e →
          e.obj = none → get_object_by_path st₂ "/p1" = none)) :=
  ⟨by decide,
    c10_placeholder_invisible (fun s => s) OM.empty "u" "v" ⟨false, "/p1"⟩
      "/p1" (lookup_add_raw OM.empty none "/p1" (some "v") (some "u"))
      (by decide)⟩

/-! ## Claim C6 -/

/-- Resolution by `stable_id` alone, as the spec describes a call whose
`display_id` is absent: lookup by `uuid`; on a miss create (indexing only
the `uuid`) when `gen_new`, else return absent (claim-side comparator). -/
def resolveStableOnly (rp : String → String) (st : OM) (uuid : String)
    (f : PathFactory) (gn : Bool) : Option (Option String × OM × Nat) :=
  match id_lookup rp st (some uuid) with
  | some p => some (some p, st, 0)
  | none =>
    if gn then
      some (some f.mint, lookup_add_raw st none f.mint none (some uuid), 1)
    else some (none, st, 0)

theorem lvm_id_verify_none (st : OM) (p : String) (u : String) :
    lvm_id_verify st p (some u) none = st := by
  unfold lvm_id_verify
  simp [truthy]

/-- C6: with the device (PV) path generator as factory and `display_id`
equal to `"[unknown]"`, the call behaves exactly as a resolution by
`stable_id` alone, and no `"[unknown]"` mapping is ever added to the
index. -/
theorem c6_unknown_display (rp : String → String) (st : OM) (uuid : String)
    (f : PathFactory) (gn : Bool) (hnd : (keysOf st.idx).Nodup)
    (hu : uuid ≠ "") (hne : uuid ≠ "[unknown]") (hpv : f.isPVGen = true) :
    get_object_path_by_uuid_lvm_id rp st uuid "[unknown]" (some f) gn =
      resolveStableOnly rp st uuid f gn
    ∧ (∀ r : Option String, ∀ st' : OM, ∀ n : Nat,
        get_object_path_by_uuid_lvm_id rp st uuid "[unknown]" (some f) gn =
          some (r, st', n) →
        ∀ q, dictGet st'.idx "[unknown]" = some q →
          dictGet st.idx "[unknown]" = some q) := by
  have heq : get_object_path_by_uuid_lvm_id rp st uuid "[unknown]" (some f) gn
      = resolve_body rp st uuid none (some f) gn := by
    rw [resolve_eq_body rp st uuid "[unknown]" (some f) gn (by decide) hu hne
      (fun _ => rfl)]
    simp [isPVFactory, hpv]
  have hbody : resolve_body rp st uuid none (some f) gn =
      resolveStableOnly rp st uuid f gn := by
    unfold resolve_body resolveStableOnly
    cases hu2 : id_lookup rp st (some uuid) with
    | some p => simp [lvm_id_verify_none]
    | none => rfl
  refine ⟨heq.trans hbody, ?_⟩
  intro r st' n hres q hq
  rw [heq, hbody] at hres
  unfold resolveStableOnly at hres
  cases hu2 : id_lookup rp st (some uuid) with
  | some p =>
    rw [hu2] at hres
    simp only [Option.some.injEq, Prod.mk.injEq] at hres
    rw [← hres.2.1] at hq
    exact hq
  | none =>
    rw [hu2] at hres
    by_cases hgn : gn = true
    · rw [if_pos hgn] at hres
      simp only [Option.some.injEq, Prod.mk.injEq] at hres
      rw [← hres.2.1] at hq
      rw [lookup_add_raw_idx_get] at hq
      rw [if_neg (fun hh => hne (Option.some.inj hh.1))] at hq
      rw [if_neg (fun hh => Option.noConfusion hh.1)] at hq
      exact lookup_remove_idx_some hnd hq
    · rw [if_neg hgn] at hres
      simp only [Option.some.injEq, Prod.mk.injEq] at hres
      rw [← hres.2.1] at hq
      exact hq

/-- Pre-state for the C6 witness: `"[unknown]"` happens to be indexed. -/
def c6st : OM :=
  ⟨[("/o9", ⟨some 9, some "[unknown]", some "U9"⟩)],
   [("[unknown]", "/o9"), ("U9", "/o9")]⟩

theorem c6_unknown_display_witness :
    ((keysOf c6st.idx).Nodup ∧ ("u1" : String) ≠ "" ∧
      ("u1" : String) ≠ "[unknown]" ∧
      (PathFactory.mk true "/new").isPVGen = true) ∧
    (get_object_path_by_uuid_lvm_id (fun s => s) c6st "u1" "[unknown]"
        (some ⟨true, "/new"⟩) true =
      resolveStableOnly (fun s => s) c6st "u1" ⟨true, "/new"⟩ true
    ∧ (∀ r : Option String, ∀ st' : OM, ∀ n : Nat,
        get_object_path_by_uuid_lvm_id (fun s => s) c6st "u1" "[unknown]"
          (some ⟨true, "/new"⟩) true = some (r, st', n) →
        ∀ q, dictGet st'.idx "[unknown]" = some q →
          dictGet c6st.idx "[unknown]" = some q)) :=
  ⟨⟨by decide, by decide, by decide, by decide⟩,
    c6_unknown_display (fun s => s) c6st "u1" ⟨true, "/new"⟩ true
      (by decide) (by decide) (by decide) (by decide)⟩

/-! ## Claim C9 -/

/-- `v[0].emit_data()` for one entry: absent when the stored object is
`None` (attribute error) or when the export itself raises. -/
def emitted (emit : Nat → Option (String × Nat)) (e : Entry) :
    Option (String × Nat) :=
  match e.obj with
  | none => none
  | some h => emit h

theorem dictSet_fresh {γ : Type} (rc : List (String × γ)) (k : String) (v : γ)
    (h : k ∉ keysOf rc) : dictSet rc k v = rc ++ [(k, v)] := by
  induction rc with
  | nil => rfl
  | cons p rest ih =>
    obtain ⟨k', v'⟩ := p
    simp only [keysOf, List.map_cons, List.mem_cons] at h
    push_neg at h
    simp only [dictSet, if_neg (fun hh : k' = k => h.1 hh.symm),
      List.cons_append, List.cons.injEq, true_and]
    exact ih (by simpa [keysOf] using h.2)

theorem gmo_loop_ok (emit : Nat → Option (String × Nat)) :
    ∀ (l : List (String × Entry)) (rc : List (String × Nat)),
    (∀ pe ∈ l, (emitted emit pe.2).isSome = true) →
    (l.map (fun pe => ((emitted emit pe.2).getD ("", 0)).1)).Nodup →
    (∀ pe ∈ l, ((emitted emit pe.2).getD ("", 0)).1 ∉ keysOf rc) →
    gmo_loop emit l rc =
      some (rc ++ l.map (fun pe => (emitted emit pe.2).getD ("", 0))) := by
  intro l
  induction l with
  | nil => intro rc _ _ _; simp [gmo_loop]
  | cons pe rest ih =>
    intro rc h1 h2 h3
    obtain ⟨p, e⟩ := pe
    have he : (emitted emit e).isSome = true :=
      h1 (p, e) (List.mem_cons_self _ _)
    cases hobj : e.obj with
    | none => simp [emitted, hobj] at he
    | some hd =>
      cases hemit : emit hd with
      | none => simp [emitted, hobj, hemit] at he
      | some pr =>
        have hpe : emitted emit e = some pr := by
          simp [emitted, hobj, hemit]
        have hfresh : pr.1 ∉ keysOf rc := by
          have := h3 (p, e) (List.mem_cons_self _ _)
          simpa [hpe] using this
        have hset : dictSet rc pr.1 pr.2 = rc ++ [pr] := by
          rw [dictSet_fresh rc pr.1 pr.2 hfresh]
        have hrec := ih (rc ++ [pr])
          (fun q hq => h1 q (List.mem_cons_of_mem _ hq))
          (by
            simp only [List.map_cons, List.nodup_cons] at h2
            exact h2.2)
          (by
            intro q hq
            simp only [keysOf, List.map_append, List.map_cons, List.map_nil,
              List.mem_append, List.mem_singleton]
            push_neg
            refine ⟨?_, ?_⟩
            · have := h3 q (List.mem_cons_of_mem _ hq)
              simpa [keysOf] using this
            · simp only [List.map_cons, List.nodup_cons] at h2
              intro hqp
              refine h2.1 ?_
              simp only [hpe, Option.getD_some]
              rw [← hqp]
              exact List.mem_map.mpr ⟨q, hq, rfl⟩)
        calc gmo_loop emit ((p, e) :: rest) rc
            = gmo_loop emit rest (dictSet rc pr.1 pr.2) := by
              simp only [gmo_loop, hobj, hemit]
          _ = some ((rc ++ [pr]) ++
              rest.map (fun q => (emitted emit q.2).getD ("", 0))) := by
              rw [hset, hrec]
          _ = some (rc ++ ((p, e) :: rest).map
              (fun q => (emitted emit q.2).getD ("", 0))) := by
              rw [List.append_assoc]
              simp [hpe]

theorem gmo_loop_fail (emit : Nat → Option (String × Nat)) :
    ∀ (l : List (String × Entry)) (rc : List (String × Nat)),
    (∃ pe ∈ l, emitted emit pe.2 = none) →
    gmo_loop emit l rc = none := by
  intro l
  induction l with
  | nil => intro rc h; simp at h
  | cons pe rest ih =>
    intro rc h
    obtain ⟨p, e⟩ := pe
    cases hobj : e.obj with
    | none => simp [gmo_loop, hobj]
    | some hd =>
      cases hemit : emit hd with
      | none => simp [gmo_loop, hobj, hemit]
      | some pr =>
        simp only [gmo_loop, hobj, hemit]
        refine ih _ ?_
        obtain ⟨q, hq, hqe⟩ := h
        rcases List.mem_cons.mp hq with hq | hq
        · subst hq
          simp [emitted, hobj, hemit] at hqe
        · exact ⟨q, hq, hqe⟩

/-- C9: when every entry's stored object exports successfully (and the
exported paths are distinct), `GetManagedObjects` returns exactly one
`(path, propertyBag)` pair per entry, in entry-table order; if any entry's
export raises — including the attribute access on a placeholder — the
call yields no result at all (`sys.exit(1)`), never a partial snapshot. -/
theorem c9_enumerate_all (emit : Nat → Option (String × Nat)) (st : OM) :
    ((∀ pe ∈ st.objects, (emitted emit pe.2).isSome = true) →
      (st.objects.map (fun pe => ((emitted emit pe.2).getD ("", 0)).1)).Nodup →
      GetManagedObjects emit st =
        some (st.objects.map (fun pe => (emitted emit pe.2).getD ("", 0))))
    ∧ ((∃ pe ∈ st.objects, emitted emit pe.2 = none) →
      GetManagedObjects emit st = none) := by
  constructor
  · intro h1 h2
    unfold GetManagedObjects
    rw [gmo_loop_ok emit st.objects [] h1 h2 (by simp [keysOf])]
    rfl
  · intro h
    exact gmo_loop_fail emit st.objects [] h

/-- Emit function for the C9 witness: object `1` exports `("/o1", 7)`,
everything else raises. -/
def c9emit : Nat → Option (String × Nat) :=
  fun h => if h = 1 then some ("/o1", 7) else none

/-- All-live state for the C9 witness. -/
def c9stA : OM :=
  ⟨[("/o1", ⟨some 1, some "L", some "U"⟩)], [("L", "/o1"), ("U", "/o1")]⟩

/-- State with a placeholder for the C9 witness. -/
def c9stB : OM :=
  ⟨[("/p", ⟨none, some "L2", some "U2"⟩)], [("L2", "/p"), ("U2", "/p")]⟩

theorem c9_enumerate_all_witness :
    GetManagedObjects c9emit c9stA =
      some (c9stA.objects.map (fun pe => (emitted c9emit pe.2).getD ("", 0)))
    ∧ GetManagedObjects c9emit c9stB = none :=
  ⟨(c9_enumerate_all c9emit c9stA).1 (by decide) (by decide),
    (c9_enumerate_all c9emit c9stB).2
      ⟨("/p", ⟨none, some "L2", some "U2"⟩), by decide, rfl⟩⟩

/-! ## Claim C2 -/

/-- C2 counterexample: with `stable_id = "U1"` and `display_id =
`"[unknown]"` (both non-empty and distinct) and the PV path generator as
factory, the creation branch indexes the placeholder only under the
stable id — `"[unknown]"` is not indexed — contradicting the claim that
the placeholder is indexed by both identifiers. -/
theorem c2_unknown_breaks_claim :
    get_object_path_by_uuid_lvm_id (fun s => s) OM.empty "U1" "[unknown]"
        (some ⟨true, "/p1"⟩) true =
      some (some "/p1",
        ⟨[("/p1", ⟨none, none, some "U1"⟩)], [("U1", "/p1")]⟩, 1)
    ∧ ("U1" : String) ≠ "" ∧ ("[unknown]" : String) ≠ ""
    ∧ ("U1" : String) ≠ "[unknown]"
    ∧ dictGet ([("U1", "/p1")] : List (String × String)) "[unknown]" = none := by
  refine ⟨by decide, by decide, by decide, by decide, by decide⟩

/-- C2 (amended): for every call with both identifiers non-empty,
`stable_id != display_id`, and excluding the normalized corner
(`display_id = "[unknown]"` with the device path generator): the index is
consulted by `stable_id` first and on a hit that entry's path is
returned; otherwise by `display_id`, and on a hit that path is returned;
otherwise with `create_if_missing` a placeholder (absent handle) indexed
by both identifiers is inserted at the minted path — the factory invoked
exactly once — and that path is returned; without `create_if_missing`,
absent is returned and the state is unchanged. -/
theorem c2_resolve_or_create (rp : String → String) (st : OM)
    (uuid lvm_id : String) (pc : Option PathFactory) (gn : Bool)
    (hl0 : lvm_id ≠ "") (hu0 : uuid ≠ "") (hne : uuid ≠ lvm_id)
    (hN : ¬(isPVFactory pc = true ∧ lvm_id = "[unknown]"))
    (hgp : gn = true → pc.isNone = false) :
    (∀ p, dictGet st.idx uuid = some p →
      ∃ st2, get_object_path_by_uuid_lvm_id rp st uuid lvm_id pc gn =
        some (some p, st2, 0))
    ∧ (id_lookup rp st (some uuid) = none →
        ∀ p, dictGet st.idx lvm_id = some p →
        ∃ st2, get_object_path_by_uuid_lvm_id rp st uuid lvm_id pc gn =
          some (some p, st2, 0))
    ∧ (∀ f, pc = some f → gn = true →
        id_lookup rp st (some uuid) = none →
        id_lookup rp st (some lvm_id) = none →
        get_object_path_by_uuid_lvm_id rp st uuid lvm_id pc gn =
          some (some f.mint,
            lookup_add_raw st none f.mint (some lvm_id) (some uuid), 1)
        ∧ dictGet (lookup_add_raw st none f.mint (some lvm_id)
            (some uuid)).objects f.mint = some ⟨none, some lvm_id, some uuid⟩
        ∧ dictGet (lookup_add_raw st none f.mint (some lvm_id)
            (some uuid)).idx uuid = some f.mint
        ∧ dictGet (lookup_add_raw st none f.mint (some lvm_id)
            (some uuid)).idx lvm_id = some f.mint)
    ∧ (gn = false →
        id_lookup rp st (some uuid) = none →
        id_lookup rp st (some lvm_id) = none →
        get_object_path_by_uuid_lvm_id rp st uuid lvm_id pc gn =
          some (none, st, 0)) := by
  have hbody := resolve_eq_body rp st uuid lvm_id pc gn hl0 hu0 hne hgp
  have hlv : (if isPVFactory pc && lvm_id = "[unknown]" then none
      else some lvm_id) = some lvm_id := by
    rw [if_neg]
    intro hc
    rcases Bool.and_eq_true_iff.mp hc with ⟨hc1, hc2⟩
    exact hN ⟨hc1, of_decide_eq_true hc2⟩
  rw [hlv] at hbody
  refine ⟨?_, ?_, ?_, ?_⟩
  · intro p hget
    exact ⟨_, by rw [hbody, resolve_body_hit_uuid (id_lookup_direct hu0 hget)]⟩
  · intro hu p hget
    exact ⟨_, by
      rw [hbody, resolve_body_hit_lvm hu (id_lookup_direct hl0 hget)]⟩
  · intro f hpc hgn hu hl
    subst hpc
    subst hgn
    refine ⟨?_, ?_, ?_, ?_⟩
    · rw [hbody, resolve_body_create hu hl]
    · exact lookup_add_raw_objects_self st none f.mint (some lvm_id) (some uuid)
    · rw [lookup_add_raw_idx_get, if_pos ⟨rfl, hu0⟩]
    · rw [lookup_add_raw_idx_get,
        if_neg (fun hh => hne (Option.some.inj hh.1)),
        if_pos ⟨rfl, hl0⟩]
  · intro hgn hu hl
    subst hgn
    rw [hbody, resolve_body_nocreate hu hl]

theorem c2_resolve_or_create_witness :
    (("v1" : String) ≠ "" ∧ ("u1" : String) ≠ "" ∧
      ("u1" : String) ≠ "v1" ∧
      ¬(isPVFactory (some ⟨false, "/p1"⟩) = true ∧ ("v1" : String) = "[unknown]") ∧
      (true = true → (some (PathFactory.mk false "/p1")).isNone = false)) ∧
    (∀ f : PathFactory, some (PathFactory.mk false "/p1") = some f →
      true = true →
      id_lookup (fun s => s) OM.empty (some "u1") = none →
      id_lookup (fun s => s) OM.empty (some "v1") = none →
      get_object_path_by_uuid_lvm_id (fun s => s) OM.empty "u1" "v1"
          (some ⟨false, "/p1"⟩) true =
        some (some f.mint,
          lookup_add_raw OM.empty none f.mint (some "v1") (some "u1"), 1)
      ∧ dictGet (lookup_add_raw OM.empty none f.mint (some "v1")
          (some "u1")).objects f.mint = some ⟨none, some "v1", some "u1"⟩
      ∧ dictGet (lookup_add_raw OM.empty none f.mint (some "v1")
          (some "u1")).idx "u1" = some f.mint
      ∧ dictGet (lookup_add_raw OM.empty none f.mint (some "v1")
          (some "u1")).idx "v1" = some f.mint) :=
  ⟨⟨by decide, by decide, by decide, by decide, fun _ => by decide⟩,
    (c2_resolve_or_create (fun s => s) OM.empty "u1" "v1"
      (some ⟨false, "/p1"⟩) true (by decide) (by decide) (by decide)
      (by decide) (fun _ => by decide)).2.2.1⟩

/-! ## Claim C3 -/

/-- Pre-state for the C3 counterexample: one entry with `lvm_id = "L"`
and `uuid = "U0"`, both indexed. -/
def c3st : OM :=
  ⟨[("/o1", ⟨some 1, some "L", some "U0"⟩)], [("L", "/o1"), ("U0", "/o1")]⟩

/-- Post-state of the C3 counterexample: the old mapping `U0 -> /o1` is
gone, replaced by `U1 -> /o1`. -/
def c3st2 : OM :=
  ⟨[("/o1", ⟨some 1, some "L", some "U1"⟩)], [("L", "/o1"), ("U1", "/o1")]⟩

/-- C3 counterexample: a lookup that hits via `display_id` with a new
`stable_id` triggers `_uuid_verify`, whose `_lookup_add` *removes* the
found entry's previously indexed `stable_id` mapping `U0 -> /o1` —
reconciliation does remove an existing identifier-to-path mapping, so the
claim that no existing mapping is removed or changed is false. -/
theorem c3_not_additive :
    get_object_path_by_uuid_lvm_id (fun s => s) c3st "U1" "L" none false =
      some (some "/o1", c3st2, 0)
    ∧ dictGet c3st.idx "U0" = some "/o1"
    ∧ dictGet c3st2.idx "U0" = none := by
  refine ⟨by decide, by decide, by decide⟩

/-- C3 (amended): during resolve_or_create's reconciliation after an
identifier hit at path `p`, the only index mappings that can be removed or
changed are those keyed by the found entry's own stored identifiers or by
the two query identifiers: every mapping to a different path whose key is
not a stored identifier of the found entry is left untouched.  In
particular, if both query identifiers are already directly indexed, the
whole call leaves the state unchanged. -/
theorem c3_reconciliation_frame (rp : String → String) (st : OM)
    (uuid lvm_id : String) (pc : Option PathFactory) (gn : Bool)
    (p : String) (st' : OM)
    (hnd : (keysOf st.idx).Nodup)
    (hres : get_object_path_by_uuid_lvm_id rp st uuid lvm_id pc gn =
      some (some p, st', 0)) :
    (∀ k q, dictGet st.idx k = some q → q ≠ p →
      (∀ e₀, dictGet st.objects p = some e₀ →
        e₀.lvm_id ≠ some k ∧ e₀.uuid ≠ some k) →
      dictGet st'.idx k = some q)
    ∧ (dictMem st.idx uuid = true → dictMem st.idx lvm_id = true →
        st' = st) := by
  obtain ⟨hl0, hu0, hgp, hgu⟩ := resolve_some_guards hres
  by_cases hid : uuid = lvm_id
  · have hgn : gn = false := by
      cases hgnv : gn with
      | false => rfl
      | true => exact absurd hid (hgu hgnv)
    subst hgn
    unfold get_object_path_by_uuid_lvm_id at hres
    rw [if_neg hl0, if_neg hu0] at hres
    simp only [Bool.false_and, Bool.false_eq_true, if_false, if_pos hid]
      at hres
    simp only [Option.some.injEq, Prod.mk.injEq] at hres
    rw [← hres.2.1]
    exact ⟨fun k q hk _ _ => hk, fun _ _ => rfl⟩
  · rw [resolve_eq_body rp st uuid lvm_id pc gn hl0 hu0 hid hgp] at hres
    generalize hlvdef : (if isPVFactory pc && lvm_id = "[unknown]" then none
        else some lvm_id) = lv at hres
    have hlv2 : lv = none ∨ lv = some lvm_id := by
      rw [← hlvdef]
      by_cases hc : (isPVFactory pc && decide (lvm_id = "[unknown]")) = true
      · rw [if_pos hc]; exact Or.inl rfl
      · rw [if_neg hc]; exact Or.inr rfl
    have hlvne : lv ≠ some uuid := by
      rcases hlv2 with h | h
      · rw [h]; exact fun hh => Option.noConfusion hh
      · rw [h]; exact fun hh => hid (Option.some.inj hh).symm
    cases hu2 : id_lookup rp st (some uuid) with
    | some p0 =>
      rw [resolve_body_hit_uuid hu2] at hres
      simp only [Option.some.injEq, Prod.mk.injEq] at hres
      obtain ⟨hp, hst, _⟩ := hres
      subst hp
      have hv : lvm_id_verify st p0 (some uuid) lv = st ∨
          ((truthy lv && !idMemOpt st.idx lv) = true ∧
            lvm_id_verify st p0 (some uuid) lv =
              lookup_add_raw st (get_object_by_path st p0) p0 lv
                (some uuid)) := by
        unfold lvm_id_verify
        by_cases hc1 : lv ≠ some uuid
        · rw [if_pos hc1]
          by_cases hc2 : (truthy lv && !idMemOpt st.idx lv) = true
          · rw [if_pos hc2]
            exact Or.inr ⟨hc2, rfl⟩
          · rw [if_neg hc2]
            exact Or.inl rfl
        · rw [if_neg hc1]
          exact Or.inl rfl
      constructor
      · intro k q hk hqp he₀
        rw [← hst]
        rcases hv with hv | ⟨hc2, hv⟩
        · rw [hv]
          exact hk
        · rw [hv, lookup_add_raw_idx_get]
          rw [if_neg (fun hh => by
            obtain ⟨hh1, _⟩ := hh
            have hk2 : dictGet st.idx uuid = some q := by
              rw [Option.some.inj hh1]
              exact hk
            exact hqp (id_lookup_eq_of_direct hk2 hu2))]
          rw [if_neg (fun hh => by
            rcases Bool.and_eq_true_iff.mp hc2 with ⟨_, hm⟩
            rw [hh.1] at hm
            simp only [idMemOpt, dictMem, hk] at hm
            simp at hm)]
          rw [lookup_remove_idx_frame hnd he₀]
          exact hk
      · intro hmu hml
        rw [← hst]
        unfold lvm_id_verify
        rcases hlv2 with hl | hl
        · rw [hl]
          simp [truthy]
        · rw [hl]
          rw [if_pos (show (some lvm_id : Option String) ≠ some uuid from
            fun hh => hid (Option.some.inj hh).symm)]
          rw [if_neg (by
            simp [idMemOpt, hml])]
    | none =>
      have hu3 : dictGet st.idx uuid = none := id_lookup_none_direct hu0 hu2
      cases hl2 : id_lookup rp st lv with
      | some p0 =>
        rw [resolve_body_hit_lvm hu2 hl2] at hres
        simp only [Option.some.injEq, Prod.mk.injEq] at hres
        obtain ⟨hp, hst, _⟩ := hres
        subst hp
        have hv : uuid_verify st p0 (some uuid) lv = st ∨
            uuid_verify st p0 (some uuid) lv =
              lookup_add_raw st (get_object_by_path st p0) p0 lv
                (some uuid) := by
          unfold uuid_verify
          by_cases hc1 : lv ≠ some uuid
          · rw [if_pos hc1]
            by_cases hc2 : (truthy (some uuid) &&
                !idMemOpt st.idx (some uuid)) = true
            · rw [if_pos hc2]
              exact Or.inr rfl
            · rw [if_neg hc2]
              exact Or.inl rfl
          · rw [if_neg hc1]
            exact Or.inl rfl
        constructor
        · intro k q hk hqp he₀
          rw [← hst]
          rcases hv with hv | hv
          · rw [hv]
            exact hk
          · rw [hv, lookup_add_raw_idx_get]
            rw [if_neg (fun hh => by
              rw [← Option.some.inj hh.1] at hk
              rw [hu3] at hk
              exact Option.noConfusion hk)]
            rw [if_neg (fun hh => by
              rw [hh.1] at hl2
              exact hqp (id_lookup_eq_of_direct hk hl2))]
            rw [lookup_remove_idx_frame hnd he₀]
            exact hk
        · intro hmu hml
          have hcontra : dictMem st.idx uuid = false := by
            simp [dictMem, hu3]
          rw [hmu] at hcontra
          exact Bool.noConfusion hcontra
      | none =>
        cases hgn : gn with
        | true =>
          have hpc : pc.isNone = false := hgp hgn
          cases pc with
          | none => simp at hpc
          | some f =>
            rw [hgn, resolve_body_create hu2 hl2] at hres
            simp only [Option.some.injEq, Prod.mk.injEq] at hres
            exact absurd hres.2.2 (by decide)
        | false =>
          rw [hgn, resolve_body_nocreate hu2 hl2] at hres
          simp only [Option.some.injEq, Prod.mk.injEq] at hres
          exact absurd hres.1 (by simp)

/-- Pre-state for the C3 amended-theorem witness: an unrelated mapping
`"X" -> "/oX"` plus the entry of `c3st`. -/
def c3stw : OM :=
  ⟨[("/o1", ⟨some 1, some "L", some "U0"⟩),
    ("/oX", ⟨some 7, some "X", some "UX"⟩)],
   [("L", "/o1"), ("U0", "/o1"), ("X", "/oX"), ("UX", "/oX")]⟩

/-- Post-state for the C3 amended-theorem witness. -/
def c3stw2 : OM :=
  ⟨[("/oX", ⟨some 7, some "X", some "UX"⟩),
    ("/o1", ⟨some 1, some "L", some "U1"⟩)],
   [("X", "/oX"), ("UX", "/oX"), ("L", "/o1"), ("U1", "/o1")]⟩

theorem c3_reconciliation_frame_witness :
    ((keysOf c3stw.idx).Nodup ∧
      get_object_path_by_uuid_lvm_id (fun s => s) c3stw "U1" "L" none false =
        some (some "/o1", c3stw2, 0)) ∧
    ((∀ k q, dictGet c3stw.idx k = some q → q ≠ "/o1" →
      (∀ e₀, dictGet c3stw.objects "/o1" = some e₀ →
        e₀.lvm_id ≠ some k ∧ e₀.uuid ≠ some k) →
      dictGet c3stw2.idx k = some q)
    ∧ (dictMem c3stw.idx "U1" = true → dictMem c3stw.idx "L" = true →
        c3stw2 = c3stw)) :=
  ⟨⟨by decide, by decide⟩,
    c3_reconciliation_frame (fun s => s) c3stw "U1" "L" none false "/o1"
      c3stw2 (by decide) (by decide)⟩

/-! ## Claim C4 -/

/-- After `_lookup_add(obj, p, lv, uuid)`, a fresh resolution of the same
`(uuid, lv)` pair hits `uuid` directly at `p` and its verify step is a
no-op: the whole body returns `p` without touching the state. -/
theorem resolve_body_after_add (rp : String → String) (st : OM)
    (uuid : String) (lv : Option String) (p : String) (obj : Option Nat)
    (pc : Option PathFactory) (gn : Bool)
    (hu0 : uuid ≠ "") (hlvne : lv ≠ some uuid)
    (hlv3 : ∀ ls, lv = some ls → ls ≠ "") :
    resolve_body rp (lookup_add_raw st obj p lv (some uuid)) uuid lv pc gn =
      some (some p, lookup_add_raw st obj p lv (some uuid), 0) := by
  have hidx : dictGet (lookup_add_raw st obj p lv (some uuid)).idx uuid =
      some p := by
    rw [lookup_add_raw_idx_get, if_pos ⟨rfl, hu0⟩]
  have hhit : id_lookup rp (lookup_add_raw st obj p lv (some uuid))
      (some uuid) = some p := id_lookup_direct hu0 hidx
  have hnoop : lvm_id_verify (lookup_add_raw st obj p lv (some uuid)) p
      (some uuid) lv = lookup_add_raw st obj p lv (some uuid) := by
    cases hlvv : lv with
    | none => rw [lvm_id_verify_none]
    | some ls =>
      have hls : ls ≠ "" := hlv3 ls hlvv
      have hlsu : ls ≠ uuid := fun hh => hlvne (by rw [hlvv, hh])
      have hmem : dictGet (lookup_add_raw st obj p lv (some uuid)).idx ls =
          some p := by
        rw [lookup_add_raw_idx_get]
        rw [if_neg (fun hh => hlsu (Option.some.inj hh.1).symm)]
        rw [if_pos ⟨hlvv, hls⟩]
      rw [hlvv] at hmem
      unfold lvm_id_verify
      rw [if_pos (show (some ls : Option String) ≠ some uuid from
        fun hh => hlsu (Option.some.inj hh))]
      rw [if_neg (by simp [idMemOpt, dictMem, hmem])]
  rw [resolve_body_hit_uuid hhit, hnoop]

/-- C4: resolve_or_create is idempotent.  If a first call with
`create_if_missing` returned path `p` and state `st1`, an immediately
repeated identical call returns `p` again, changes nothing (`st1`), and
does not invoke the factory; the factory ran at most once in the first
call; and when it did run (`n1 = 1`) onto a fresh minted path, exactly one
entry was added to the entry table. -/
theorem c4_idempotent (rp : String → String) (st : OM) (uuid lvm_id : String)
    (f : PathFactory) (p : String) (st1 : OM) (n1 : Nat)
    (hres1 : get_object_path_by_uuid_lvm_id rp st uuid lvm_id (some f) true =
      some (some p, st1, n1)) :
    get_object_path_by_uuid_lvm_id rp st1 uuid lvm_id (some f) true =
      some (some p, st1, 0)
    ∧ n1 ≤ 1
    ∧ (n1 = 1 → dictGet st.objects f.mint = none →
        p = f.mint ∧ st1.objects.length = st.objects.length + 1) := by
  obtain ⟨hl0, hu0, hgp, hgu⟩ := resolve_some_guards hres1
  have hne := hgu rfl
  have hbody2 := resolve_eq_body rp st1 uuid lvm_id (some f) true hl0 hu0
    hne hgp
  rw [resolve_eq_body rp st uuid lvm_id (some f) true hl0 hu0 hne hgp]
    at hres1
  rw [hbody2]
  generalize hlvdef : (if isPVFactory (some f) && lvm_id = "[unknown]"
      then none else some lvm_id) = lv at hres1 ⊢
  have hlv2 : lv = none ∨ lv = some lvm_id := by
    rw [← hlvdef]
    by_cases hc : (isPVFactory (some f) && decide (lvm_id = "[unknown]")) =
        true
    · rw [if_pos hc]; exact Or.inl rfl
    · rw [if_neg hc]; exact Or.inr rfl
  have hlvne : lv ≠ some uuid := by
    rcases hlv2 with h | h
    · rw [h]; exact fun hh => Option.noConfusion hh
    · rw [h]; exact fun hh => hne (Option.some.inj hh).symm
  have hlv3 : ∀ ls, lv = some ls → ls ≠ "" := by
    intro ls hls
    rcases hlv2 with h | h
    · rw [h] at hls; cases hls
    · rw [h] at hls
      rw [← Option.some.inj hls]
      exact hl0
  cases hu2 : id_lookup rp st (some uuid) with
  | some p0 =>
    rw [resolve_body_hit_uuid hu2] at hres1
    simp only [Option.some.injEq, Prod.mk.injEq] at hres1
    obtain ⟨hp, hst, hn⟩ := hres1
    subst hp
    rw [← hn]
    have hv : lvm_id_verify st p0 (some uuid) lv = st ∨
        lvm_id_verify st p0 (some uuid) lv =
          lookup_add_raw st (get_object_by_path st p0) p0 lv (some uuid) := by
      unfold lvm_id_verify
      by_cases hc1 : lv ≠ some uuid
      · rw [if_pos hc1]
        by_cases hc2 : (truthy lv && !idMemOpt st.idx lv) = true
        · rw [if_pos hc2]
          exact Or.inr rfl
        · rw [if_neg hc2]
          exact Or.inl rfl
      · rw [if_neg hc1]
        exact Or.inl rfl
    refine ⟨?_, by decide, fun hx => absurd hx (by decide)⟩
    rcases hv with hv | hv
    · rw [hv] at hst
      rw [← hst, resolve_body_hit_uuid hu2, hv]
    · rw [hv] at hst
      rw [← hst]
      exact resolve_body_after_add rp st uuid lv p0
        (get_object_by_path st p0) (some f) true hu0 hlvne hlv3
  | none =>
    have hu3 : dictGet st.idx uuid = none := id_lookup_none_direct hu0 hu2
    cases hl2 : id_lookup rp st lv with
    | some p0 =>
      rw [resolve_body_hit_lvm hu2 hl2] at hres1
      simp only [Option.some.injEq, Prod.mk.injEq] at hres1
      obtain ⟨hp, hst, hn⟩ := hres1
      subst hp
      rw [← hn]
      have hverify : uuid_verify st p0 (some uuid) lv =
          lookup_add_raw st (get_object_by_path st p0) p0 lv (some uuid) := by
        unfold uuid_verify
        rw [if_pos hlvne]
        rw [if_pos (by
          simp [truthy, hu0, idMemOpt, dictMem, hu3])]
      rw [hverify] at hst
      rw [← hst]
      exact ⟨resolve_body_after_add rp st uuid lv p0
          (get_object_by_path st p0) (some f) true hu0 hlvne hlv3,
        by decide, fun hx => absurd hx (by decide)⟩
    | none =>
      rw [resolve_body_create hu2 hl2] at hres1
      simp only [Option.some.injEq, Prod.mk.injEq] at hres1
      obtain ⟨hp, hst, hn⟩ := hres1
      subst hp
      rw [← hn]
      refine ⟨?_, by decide, ?_⟩
      · rw [← hst]
        exact resolve_body_after_add rp st uuid lv f.mint none (some f) true
          hu0 hlvne hlv3
      · intro _ hfresh
        refine ⟨rfl, ?_⟩
        rw [← hst]
        unfold lookup_add_raw
        simp only
        rw [lookup_remove_absent hfresh]
        exact length_dictSet_of_not_mem st.objects f.mint _ hfresh

theorem c4_idempotent_witness :
    get_object_path_by_uuid_lvm_id (fun s => s) OM.empty "u" "v"
        (some ⟨false, "/p1"⟩) true =
      some (some "/p1",
        ⟨[("/p1", ⟨none, some "v", some "u"⟩)], [("v", "/p1"), ("u", "/p1")]⟩,
        1) ∧
    (get_object_path_by_uuid_lvm_id (fun s => s)
        ⟨[("/p1", ⟨none, some "v", some "u"⟩)], [("v", "/p1"), ("u", "/p1")]⟩
        "u" "v" (some ⟨false, "/p1"⟩) true =
      some (some "/p1",
        ⟨[("/p1", ⟨none, some "v", some "u"⟩)], [("v", "/p1"), ("u", "/p1")]⟩,
        0)
    ∧ (1 : Nat) ≤ 1
    ∧ ((1 : Nat) = 1 → dictGet OM.empty.objects "/p1" = none →
        ("/p1" : String) = "/p1" ∧
        (⟨[("/p1", ⟨none, some "v", some "u"⟩)],
          [("v", "/p1"), ("u", "/p1")]⟩ : OM).objects.length =
          OM.empty.objects.length + 1)) :=
  ⟨by decide,
    c4_idempotent (fun s => s) OM.empty "u" "v" ⟨false, "/p1"⟩ "/p1"
      ⟨[("/p1", ⟨none, some "v", some "u"⟩)], [("v", "/p1"), ("u", "/p1")]⟩
      1 (by decide)⟩

end ObjMgr
